import Mathlib

/-!
# redis-asio: verification of the RESP codec and stream facade

A shallow embedding, in Lean, of the core of the `redis-asio` Rust crate:
the RESP wire codec (`src/codec/encode.rs`, `src/codec/decode.rs`), the
wire/user value models (`src/base/resp_value.rs`, `src/base/value.rs`),
the command composers of the stream facade (`src/stream/manage.rs`,
`src/stream/consume.rs`), stream entry id parsing (`src/stream/entry.rs`),
and the subscription engine's reply/re-arm loop (`src/stream/consume.rs`).

Rust strings and byte vectors are modelled as `List Nat` of byte values;
Rust `i64`/`u64` are modelled as `Int`/`Nat` with explicit range checks
exactly where the Rust code performs checked parsing, and explicit
wrap-around exactly where the Rust code performs an `as` cast.
-/

namespace RedisAsio

/-- Byte constants used by the codec (ASCII codes). -/
def CR : Nat := 13
def LF : Nat := 10

/-! ## Decimal digits: Rust's integer formatting and checked parsing

`natDigits n` is the ASCII decimal representation of `n`, exactly what
Rust's `u64::to_string` / the `{}` formatter produce.  The auxiliary
function recurses on a fuel argument so that it is structurally recursive
and therefore computable by `decide`; `natDigitsAux` is only ever called
with fuel `≥ n`, which the round-trip lemmas below show is sufficient. -/

def natDigitsAux : Nat → Nat → List Nat
  | 0, _ => []
  | fuel + 1, n =>
      if n = 0 then [] else natDigitsAux fuel (n / 10) ++ [48 + n % 10]

/-- ASCII decimal representation of a natural number (Rust `to_string`). -/
def natDigits (n : Nat) : List Nat :=
  if n = 0 then [48] else natDigitsAux n n

/-- ASCII decimal representation of an integer (Rust `i64::to_string`):
a leading `-` (byte 45) for negative values. -/
def intDigits (x : Int) : List Nat :=
  if x < 0 then 45 :: natDigits (-x).toNat else natDigits x.toNat

/-- Accumulating decimal evaluator over ASCII digit bytes; `none` as soon
as a non-digit byte is met.  Models the digit-consuming loop of Rust's
`from_str_radix`. -/
def digitsValGo (acc : Nat) : List Nat → Option Nat
  | [] => some acc
  | d :: rest =>
      if 48 ≤ d ∧ d ≤ 57 then digitsValGo (acc * 10 + (d - 48)) rest else none

/-- Value of a nonempty all-digit byte string; `none` otherwise. -/
def digitsVal (l : List Nat) : Option Nat :=
  match l with
  | [] => none
  | _ => digitsValGo 0 l

/-- Strip one optional leading `+` (byte 43), as Rust's integer `FromStr`
implementations accept. -/
def stripPlus (s : List Nat) : List Nat :=
  match s with
  | b :: rest => if b = 43 then rest else s
  | [] => s

/-- Rust's `str::parse` into an unsigned integer type whose maximum value
is `limit`: optional `+`, then a nonempty run of digits, with an overflow
check. -/
def parseRustNat (limit : Nat) (s : List Nat) : Option Nat :=
  match digitsVal (stripPlus s) with
  | none => none
  | some v => if v ≤ limit then some v else none

/-- Rust's `str::parse` into a signed integer type with range
`[lo, hi]`: optional `+` or `-`, then a nonempty run of digits, with an
overflow check. -/
def parseRustInt (lo hi : Int) (s : List Nat) : Option Int :=
  match s with
  | [] => none
  | b :: rest =>
      if b = 45 then
        match digitsVal rest with
        | none => none
        | some v => if lo ≤ -(v : Int) then some (-(v : Int)) else none
      else
        match digitsVal (stripPlus (b :: rest)) with
        | none => none
        | some v => if (v : Int) ≤ hi then some (v : Int) else none

/-- Rust `str::parse::<i64>()`. -/
def parseI64 (s : List Nat) : Option Int :=
  parseRustInt (-(2 ^ 63)) (2 ^ 63 - 1) s

/-- Rust `str::parse::<u64>()`. -/
def parseU64 (s : List Nat) : Option Nat :=
  parseRustNat (2 ^ 64 - 1) s

/-! ## UTF-8 validity

`Rust`'s `String::from_utf8` accepts exactly the byte sequences matching
RFC 3629 (no surrogates, no overlong forms, code points ≤ U+10FFFF).
`isValidUtf8` is the standard byte-range table for that grammar. -/

/-- State of the UTF-8 validating automaton: how many continuation bytes
are still expected, and the admissible range for the next byte (the first
continuation byte of a sequence is range-restricted to exclude overlong
forms, surrogates and code points above U+10FFFF; later ones are plain
`0x80..=0xBF`). -/
structure Utf8State : Type where
  remaining : Nat
  lo : Nat
  hi : Nat
  deriving DecidableEq

/-- One step of the UTF-8 validating automaton. -/
def utf8Step (st : Utf8State) (b : Nat) : Option Utf8State :=
  match st.remaining with
  | 0 =>
      if b ≤ 0x7F then some ⟨0, 0, 0⟩
      else if 0xC2 ≤ b ∧ b ≤ 0xDF then some ⟨1, 0x80, 0xBF⟩
      else if b = 0xE0 then some ⟨2, 0xA0, 0xBF⟩
      else if (0xE1 ≤ b ∧ b ≤ 0xEC) ∨ b = 0xEE ∨ b = 0xEF then some ⟨2, 0x80, 0xBF⟩
      else if b = 0xED then some ⟨2, 0x80, 0x9F⟩
      else if b = 0xF0 then some ⟨3, 0x90, 0xBF⟩
      else if 0xF1 ≤ b ∧ b ≤ 0xF3 then some ⟨3, 0x80, 0xBF⟩
      else if b = 0xF4 then some ⟨3, 0x80, 0x8F⟩
      else none
  | r + 1 =>
      if st.lo ≤ b ∧ b ≤ st.hi then some ⟨r, 0x80, 0xBF⟩ else none

def utf8Scan (st : Utf8State) : List Nat → Bool
  | [] => st.remaining == 0
  | b :: rest =>
      match utf8Step st b with
      | some st2 => utf8Scan st2 rest
      | none => false

/-- Rust's `String::from_utf8` validity check (RFC 3629). -/
def isValidUtf8 (l : List Nat) : Bool := utf8Scan ⟨0, 0, 0⟩ l

/-! ## The RESP wire value model

`RespInternalValue` mirrors `src/base/resp_value.rs`:
Rust `String` fields become their UTF-8 byte lists, `Vec<u8>` becomes a
byte list, and `i64` becomes `Int` (the decoder only ever constructs
integers inside the `i64` range because it uses `i64` checked parsing). -/

inductive RespInternalValue : Type where
  | Nil : RespInternalValue
  | Error : List Nat → RespInternalValue
  | Status : List Nat → RespInternalValue
  | Int : Int → RespInternalValue
  | BulkString : List Nat → RespInternalValue
  | Array : List RespInternalValue → RespInternalValue

/-! ## The encoder (`src/codec/encode.rs`, `encode_resp_value`) -/

/-- `encode_resp_value` from `src/codec/encode.rs`.

* `Nil` ↦ the five bytes `$-1\r\n`;
* `Error x` ↦ `-x\r\n`; `Status x` ↦ `+x\r\n`; `Int x` ↦ `:x\r\n`
  with `x` in decimal;
* `BulkString x` ↦ `$<len>\r\n<x>\r\n`;
* `Array x` ↦ `*<len>\r\n` followed by the encodings of the elements. -/
def encode_resp_value : RespInternalValue → List Nat
  | .Nil => [36, 45, 49, CR, LF]
  | .Error x => 45 :: (x ++ [CR, LF])
  | .Status x => 43 :: (x ++ [CR, LF])
  | .Int x => 58 :: (intDigits x ++ [CR, LF])
  | .BulkString x => 36 :: (natDigits x.length ++ [CR, LF] ++ x ++ [CR, LF])
  | .Array x => 42 :: (natDigits x.length ++ [CR, LF] ++ encodeList x)
where
  encodeList : List RespInternalValue → List Nat
  | [] => []
  | v :: vs => encode_resp_value v ++ encodeList vs

/-! ## The decoder (`src/codec/decode.rs`)

Each function takes the bytes after the already-consumed prefix (the Rust
functions receive sub-slices) and returns
* `.ok (some ⟨value, value_src_len⟩)` — one complete value and the number
  of bytes it occupies,
* `.ok none` — "need more bytes" (Rust `Ok(None)`),
* `.error _` — a parse failure (Rust `Err(RedisCoreError)` with kind
  `ParseError`).
-/

/-- `ParseResult` from `src/codec/decode.rs`. -/
structure ParseRes (α : Type) : Type where
  value : α
  value_src_len : Nat
  deriving DecidableEq

/-- Decoder failure token.  Every failure the source constructs carries
kind `RedisErrorKind::ParseError`, modelled by `.parseErr`.
`.fuelExhausted` exists only because the embedding bounds the recursion
depth of `parseValueF` with a fuel argument; it is proved unreachable for
the fuel used by `parse_resp_value`. -/
inductive DecodeErr : Type where
  | parseErr : DecodeErr
  | fuelExhausted : DecodeErr
  deriving DecidableEq

abbrev DecRes (α : Type) := Except DecodeErr (Option (ParseRes α))

/-- `parse_simple_string`: scan for the first CR, demand an immediately
following LF, and decode the preceding bytes as UTF-8. -/
def parse_simple_string (data : List Nat) : DecRes (List Nat) :=
  match data.findIdx? (fun x => x == CR) with
  | none => .ok none
  | some p =>
      if p ≥ data.length - 1 then .ok none
      else if data.getD (p + 1) 0 ≠ LF then .error .parseErr
      else if isValidUtf8 (data.take p) then .ok (some ⟨data.take p, p + 2⟩)
      else .error .parseErr

/-- `parse_simple_int`: a simple string holding a decimal `i64`. -/
def parse_simple_int (data : List Nat) : DecRes Int :=
  match parse_simple_string data with
  | .error e => .error e
  | .ok none => .ok none
  | .ok (some r) =>
      match parseI64 r.value with
      | some v => .ok (some ⟨v, r.value_src_len⟩)
      | none => .error .parseErr

/-- Rust `slice::ends_with(&[CR, LF])`. -/
def endsWithCrlf (l : List Nat) : Bool :=
  l.reverse.take 2 == [LF, CR]

/-- `parse_error` of the source: an Error frame body. -/
def parse_error (data : List Nat) : DecRes RespInternalValue :=
  match parse_simple_string data with
  | .error e => .error e
  | .ok none => .ok none
  | .ok (some r) => .ok (some ⟨.Error r.value, r.value_src_len⟩)

/-- `parse_status` of the source: a Status frame body. -/
def parse_status (data : List Nat) : DecRes RespInternalValue :=
  match parse_simple_string data with
  | .error e => .error e
  | .ok none => .ok none
  | .ok (some r) => .ok (some ⟨.Status r.value, r.value_src_len⟩)

/-- `parse_int` of the source: an Integer frame body. -/
def parse_int (data : List Nat) : DecRes RespInternalValue :=
  match parse_simple_int data with
  | .error e => .error e
  | .ok none => .ok none
  | .ok (some r) => .ok (some ⟨.Int r.value, r.value_src_len⟩)

/-- `parse_bulkstring` of the source.  A negative declared length is the
null value, but only when the length line is followed by a further
immediate CRLF (the source checks `data[..len_len + 2]` ends with CRLF,
and `len_len` already includes the CRLF of the length line itself). -/
def parse_bulkstring (data : List Nat) : DecRes RespInternalValue :=
  match parse_simple_int data with
  | .error e => .error e
  | .ok none => .ok none
  | .ok (some r) =>
      if r.value < 0 then
        if data.length < r.value_src_len + 2 then .ok none
        else if endsWithCrlf (data.take (r.value_src_len + 2)) then
          .ok (some ⟨.Nil, r.value_src_len + 2⟩)
        else .error .parseErr
      else
        if data.length < r.value_src_len + r.value.toNat + 2 then .ok none
        else if ¬ (endsWithCrlf (data.take (r.value_src_len + r.value.toNat + 2)) = true) then
          .error .parseErr
        else .ok (some ⟨.BulkString ((data.drop r.value_src_len).take r.value.toNat),
          r.value_src_len + r.value.toNat + 2⟩)

/-- The element loop of `parse_array` (`src/codec/decode.rs` lines
148-160), parameterised by the parser `pv` used for one element: parse
`n` elements from `d`, returning them with the total number of bytes they
consumed. -/
def parseElemsWith (pv : List Nat → DecRes RespInternalValue) :
    Nat → List Nat → Except DecodeErr (Option (List RespInternalValue × Nat))
  | 0, _ => .ok (some ([], 0))
  | n + 1, d =>
      match pv d with
      | .error e => .error e
      | .ok none => .ok none
      | .ok (some r) =>
          match parseElemsWith pv n (d.drop r.value_src_len) with
          | .error e => .error e
          | .ok none => .ok none
          | .ok (some (vs, c)) => .ok (some (r.value :: vs, r.value_src_len + c))

/-- `parse_array` of the source, parameterised by the parser used for the
nested elements.  A negative declared length is a parse error
("Array length cannot be negative"). -/
def parse_arrayWith (pv : List Nat → DecRes RespInternalValue)
    (data : List Nat) : DecRes RespInternalValue :=
  match parse_simple_int data with
  | .error e => .error e
  | .ok none => .ok none
  | .ok (some r) =>
      if r.value < 0 then .error .parseErr
      else
        match parseElemsWith pv r.value.toNat (data.drop r.value_src_len) with
        | .error e => .error e
        | .ok none => .ok none
        | .ok (some (vs, c)) => .ok (some ⟨.Array vs, r.value_src_len + c⟩)

/-- Add the one-byte discriminator to the consumed length of a frame body
(the final `map` of `parse_resp_value` in the source). -/
def framePlusOne (res : DecRes RespInternalValue) : DecRes RespInternalValue :=
  match res with
  | .error e => .error e
  | .ok none => .ok none
  | .ok (some r) => .ok (some ⟨r.value, r.value_src_len + 1⟩)

/-- `parse_resp_value` of the source, with an explicit fuel bounding the
nesting depth of arrays (fuel decreases once per nesting level; any fuel
exceeding the buffer length is sufficient and all such fuels agree, see
`parseValueF_fuel_irrel` and `parseValueF_no_fuel_error`).  The head byte
dispatches on the RESP discriminators `-`, `+`, `:`, `$`, `*`; an empty
buffer is "need more"; an unknown discriminator is a parse error. -/
def parseValueF : Nat → List Nat → DecRes RespInternalValue
  | 0, _ => .error .fuelExhausted
  | fuel + 1, data =>
      match data with
      | [] => .ok none
      | b :: rest =>
          framePlusOne
            (if b = 45 then parse_error rest
             else if b = 43 then parse_status rest
             else if b = 58 then parse_int rest
             else if b = 36 then parse_bulkstring rest
             else if b = 42 then parse_arrayWith (parseValueF fuel) rest
             else .error .parseErr)

/-- `parse_resp_value` from `src/codec/decode.rs`. -/
def parse_resp_value (data : List Nat) : DecRes RespInternalValue :=
  parseValueF (data.length + 1) data

/-- `RedisCodec::decode` from `src/base/codec/mod.rs`: on a complete
value, split the consumed bytes off the front of the buffer; on "need
more", leave the buffer untouched. -/
def RedisCodec_decode (buf : List Nat) :
    Except DecodeErr (Option RespInternalValue × List Nat) :=
  match parse_resp_value buf with
  | .error e => .error e
  | .ok none => .ok (none, buf)
  | .ok (some r) => .ok (some r.value, buf.drop r.value_src_len)

/-! ### Destructuring the decoder's match chains -/

/-- Body of `parse_bulkstring` once the length line has been parsed. -/
def bulkStringBody (data : List Nat) (r : ParseRes Int) : DecRes RespInternalValue :=
  if r.value < 0 then
    if data.length < r.value_src_len + 2 then .ok none
    else if endsWithCrlf (data.take (r.value_src_len + 2)) then
      .ok (some ⟨.Nil, r.value_src_len + 2⟩)
    else .error .parseErr
  else
    if data.length < r.value_src_len + r.value.toNat + 2 then .ok none
    else if ¬ (endsWithCrlf (data.take (r.value_src_len + r.value.toNat + 2)) = true) then
      .error .parseErr
    else .ok (some ⟨.BulkString ((data.drop r.value_src_len).take r.value.toNat),
      r.value_src_len + r.value.toNat + 2⟩)

/-- Body of `parse_array` once the length line has been parsed. -/
def arrayBody (pv : List Nat → DecRes RespInternalValue)
    (data : List Nat) (r : ParseRes Int) : DecRes RespInternalValue :=
  if r.value < 0 then .error .parseErr
  else
    match parseElemsWith pv r.value.toNat (data.drop r.value_src_len) with
    | .error e => .error e
    | .ok none => .ok none
    | .ok (some (vs, c)) => .ok (some ⟨.Array vs, r.value_src_len + c⟩)

/-! ## User values and conversions (`src/base/value.rs`,
`src/base/resp_value.rs`, `src/base/error.rs`) -/

/-- UTF-8 bytes of an ASCII string literal. -/
def strBytes (s : String) : List Nat := s.data.map Char.toNat

/-- `RedisValue` from `src/base/value.rs`. -/
inductive RedisValue : Type where
  | Nil : RedisValue
  | Ok : RedisValue
  | Status : List Nat → RedisValue
  | Int : Int → RedisValue
  | BulkString : List Nat → RedisValue
  | Array : List RedisValue → RedisValue

/-- `RedisErrorKind` (`src/base/error.rs`, plus the two kinds the stream
layer constructs: `InternalError` and `InvalidOptions`). -/
inductive RedisErrorKind : Type where
  | IncorrectConversion : RedisErrorKind
  | ConnectionError : RedisErrorKind
  | ParseError : RedisErrorKind
  | ReceiveError : RedisErrorKind
  | InternalError : RedisErrorKind
  | InvalidOptions : RedisErrorKind
  deriving DecidableEq

/-- `RedisError`: a kind plus a description.  For a server-returned wire
`Error` the description is the error text verbatim; for the other error
paths the source formats a diagnostic message that no claim inspects, so
those descriptions are modelled as `[]`. -/
structure RedisError : Type where
  kind : RedisErrorKind
  desc : List Nat
  deriving DecidableEq

mutual

/-- `RespInternalValue::into_redis_value` (`src/base/resp_value.rs`):
a wire `Error` becomes a `ReceiveError` carrying the text; `Status "OK"`
is promoted to `Ok`; arrays convert elementwise, propagating the first
error. -/
def into_redis_value : RespInternalValue → Except RedisError RedisValue
  | .Nil => .ok .Nil
  | .Error x => .error ⟨.ReceiveError, x⟩
  | .Status x => if x = strBytes "OK" then .ok .Ok else .ok (.Status x)
  | .Int x => .ok (.Int x)
  | .BulkString x => .ok (.BulkString x)
  | .Array xs =>
      match intoRedisList xs with
      | .ok l => .ok (.Array l)
      | .error e => .error e

def intoRedisList : List RespInternalValue → Except RedisError (List RedisValue)
  | [] => .ok []
  | v :: vs =>
      match into_redis_value v with
      | .error e => .error e
      | .ok rv =>
          match intoRedisList vs with
          | .error e => .error e
          | .ok l => .ok (rv :: l)

end

/-- `FromRedisValue for String`: a `Status` yields its text, a
`BulkString` must be valid UTF-8, anything else is an
`IncorrectConversion`. -/
def string_from_redis_value (v : RedisValue) : Except RedisError (List Nat) :=
  match v with
  | .Status x => .ok x
  | .BulkString x =>
      if isValidUtf8 x then .ok x else .error ⟨.IncorrectConversion, []⟩
  | _ => .error ⟨.IncorrectConversion, []⟩

/-- Rust's `as` cast of an `i64` into an integer type of width `w`
(signed or unsigned): two's-complement truncation to the low `w` bits. -/
def wrapCast (signed : Bool) (w : Nat) (x : Int) : Int :=
  if signed then
    if x % (2 ^ w) < 2 ^ (w - 1) then x % (2 ^ w)
    else x % (2 ^ w) - 2 ^ w
  else x % (2 ^ w)

/-- Rust's checked `str::parse` into an integer type of width `w`. -/
def parseRustTyped (signed : Bool) (w : Nat) (s : List Nat) : Option Int :=
  if signed then parseRustInt (-(2 ^ (w - 1))) (2 ^ (w - 1) - 1) s
  else (parseRustNat (2 ^ w - 1) s).map (fun n => (n : Int))

/-- `int_from_redis_value::<T>` (`src/base/value.rs`), with the target
type `T` abstracted by its signedness and bit width: a wire `Int` is
converted by `convert_from_int` (the wrapping `as` cast); a `BulkString`
is decoded as UTF-8 and then goes through `convert_from_str` (checked
parsing); everything else is an `IncorrectConversion`. -/
def int_from_redis_value (signed : Bool) (w : Nat) (v : RedisValue) :
    Except RedisError Int :=
  match v with
  | .Int x => .ok (wrapCast signed w x)
  | .BulkString x =>
      if isValidUtf8 x then
        match parseRustTyped signed w x with
        | some r => .ok r
        | none => .error ⟨.IncorrectConversion, []⟩
      else .error ⟨.IncorrectConversion, []⟩
  | _ => .error ⟨.IncorrectConversion, []⟩

/-- `FromRedisValue for Vec<RedisValue>`: an `Array` yields its elements
(the element conversion for `RedisValue` is the identity); a `BulkString`
fails because `RedisValue::from_redis_u8` is `None`; anything else is an
`IncorrectConversion`. -/
def vecRv_from_redis_value (v : RedisValue) : Except RedisError (List RedisValue) :=
  match v with
  | .Array x => .ok x
  | _ => .error ⟨.IncorrectConversion, []⟩

/-- `HashMap::insert` on the association-list model of a `HashMap`: a
present key has its value replaced, a new key is appended. -/
def hmInsert (m : List (List Nat × RedisValue)) (k : List Nat) (val : RedisValue) :
    List (List Nat × RedisValue) :=
  if m.any (fun p => p.1 == k) then
    m.map (fun p => if p.1 == k then (k, val) else p)
  else m ++ [(k, val)]

/-- The chunk loop of `FromRedisValue for HashMap<String, RedisValue>`:
convert each key with the `String` conversion, keep each value as is, and
`insert` the pair (silently replacing an equal key). -/
def hmGo : List RedisValue → List (List Nat × RedisValue) →
    Except RedisError (List (List Nat × RedisValue))
  | [], acc => .ok acc
  | [_], acc => .ok acc
  | k :: val :: rest, acc =>
      match string_from_redis_value k with
      | .error e => .error e
      | .ok key => hmGo rest (hmInsert acc key val)

/-- `FromRedisValue for HashMap<String, RedisValue>`
(`src/base/value.rs` lines 120-147): requires an `Array` of even length,
then folds `insert` over the key/value chunks. -/
def hashmap_from_redis_value (v : RedisValue) :
    Except RedisError (List (List Nat × RedisValue)) :=
  match v with
  | .Array kvs =>
      if kvs.length % 2 ≠ 0 then .error ⟨.IncorrectConversion, []⟩
      else hmGo kvs []
  | _ => .error ⟨.IncorrectConversion, []⟩

/-- `FromRedisValue for EntryInfo` (`src/stream/entry.rs`): a two-element
array `(id, field array)`, the id as a String and the fields as a
`HashMap<String, RedisValue>`. -/
def entry_info_from_redis_value (v : RedisValue) :
    Except RedisError (List Nat × List (List Nat × RedisValue)) :=
  match vecRv_from_redis_value v with
  | .error e => .error e
  | .ok values =>
      if values.length ≠ 2 then .error ⟨.ParseError, []⟩
      else
        match string_from_redis_value (values.getD 0 .Nil) with
        | .error e => .error e
        | .ok id =>
            match hashmap_from_redis_value (values.getD 1 .Nil) with
            | .error e => .error e
            | .ok kv => .ok (id, kv)

/-! ## Stream entry ids (`src/stream/entry.rs`) -/

/-- `EntryId`: the pair `(milliseconds, sequence)` of `u64`s. -/
structure EntryId : Type where
  ms : Nat
  seq : Nat
  deriving DecidableEq

/-- `EntryId::to_string`: `"<ms>-<seq>"`. -/
def EntryId.to_string (e : EntryId) : List Nat :=
  natDigits e.ms ++ 45 :: natDigits e.seq

/-- Rust `str::split('-')` (byte 45). -/
def splitOnDash : List Nat → List (List Nat)
  | [] => [[]]
  | b :: rest =>
      if b = 45 then [] :: splitOnDash rest
      else
        match splitOnDash rest with
        | t :: ts => (b :: t) :: ts
        | [] => [[b]]

/-- `EntryId::from_string` (`src/stream/entry.rs` lines 161-179): split
on `-`, DISCARD empty tokens, demand exactly two remaining tokens, and
parse each as a `u64`. -/
def EntryId.from_string (id : List Nat) : Except RedisError EntryId :=
  match (splitOnDash id).filter (fun t => !t.isEmpty) with
  | [t0, t1] =>
      match parseU64 t0 with
      | none => .error ⟨.ParseError, []⟩
      | some ms =>
          match parseU64 t1 with
          | none => .error ⟨.ParseError, []⟩
          | some seq => .ok ⟨ms, seq⟩
  | _ => .error ⟨.ParseError, []⟩

/-! ## Command composers (`src/base/command.rs`, `src/stream/manage.rs`)

A `RedisCommand` is serialised as an `Array` of `BulkString`s; here a
command is modelled as its argument list (the `args` field), each
argument already rendered to the `BulkString` the source produces:
text and byte arguments verbatim, integer arguments in decimal. -/

/-- `RangeType` from `src/stream/entry.rs`. -/
inductive RangeType : Type where
  | Any : RangeType
  | GreaterThan : EntryId → RangeType
  | LessThan : EntryId → RangeType
  | GreaterLessThan : EntryId → EntryId → RangeType

/-- `RangeType::is_valid`: only a `GreaterLessThan` range is constrained,
to `left < right` in lexicographic `(ms, seq)` order (Rust derives
`PartialOrd` on the pair). -/
def RangeType.is_valid : RangeType → Bool
  | .GreaterLessThan l r =>
      decide (l.ms < r.ms ∨ (l.ms = r.ms ∧ l.seq < r.seq))
  | _ => true

/-- `RangeType::to_left_right`: `Any` ↦ `("-", "+")`, one-sided ranges use
`-`/`+` for the open side. -/
def RangeType.to_left_right : RangeType → List Nat × List Nat
  | .Any => ([45], [43])
  | .GreaterThan l => (l.to_string, [43])
  | .LessThan r => ([45], r.to_string)
  | .GreaterLessThan l r => (l.to_string, r.to_string)

/-- `PendingOptions` from `src/stream/manage.rs`: the optional count is a
`u16`. -/
structure PendingOptions : Type where
  stream : List Nat
  group : List Nat
  consumer : List Nat
  range : RangeType
  count : Option Nat

/-- `pending_list_command` (`src/stream/manage.rs` lines 54-67): the argv
actually composed for `pending_entries` is
`XPENDING <stream> <group> <left> <right> [<count>] <consumer>`. -/
def pending_list_command (o : PendingOptions) : List RespInternalValue :=
  [.BulkString (strBytes "XPENDING"), .BulkString o.stream,
   .BulkString o.group, .BulkString o.range.to_left_right.1,
   .BulkString o.range.to_left_right.2] ++
  (match o.count with
   | some c => [.BulkString (natDigits c)]
   | none => []) ++
  [.BulkString o.consumer]

/-- `TouchGroupOptions` from `src/stream/manage.rs`. -/
structure TouchGroupOptions : Type where
  stream : List Nat
  group : List Nat

/-- `touch_group_command` (`src/stream/manage.rs` lines 69-75): the argv
is the five bulk strings `XGROUP CREATE <stream> <group> $` — there is no
`MKSTREAM` argument in the source. -/
def touch_group_command (o : TouchGroupOptions) : List RespInternalValue :=
  [.BulkString (strBytes "XGROUP"), .BulkString (strBytes "CREATE"),
   .BulkString o.stream, .BulkString o.group, .BulkString (strBytes "$")]

/-! ## `touch_group` error downgrade (`src/stream/stream.rs` lines 298-314) -/

/-- Rust `str::contains` on byte strings: `pat` occurs somewhere in `l`. -/
def containsSeq : List Nat → List Nat → Bool
  | l, pat =>
      if pat.isPrefixOf l then true
      else
        match l with
        | [] => false
        | _ :: t => containsSeq t pat

/-- The result `touch_group` produces from one server reply frame: the
connection layer (`Send::poll` + `into_redis_value`) turns a wire `Error`
into `Err(RedisError(ReceiveError, text))` and any other frame into a
success; `touch_group` then downgrades to success any error whose kind is
`ReceiveError` and whose description CONTAINS `"BUSYGROUP"` (the source
uses `err.description().contains("BUSYGROUP")`, not a prefix test). -/
def touch_group_reply (reply : RespInternalValue) : Except RedisError Unit :=
  match into_redis_value reply with
  | .ok _ => .ok ()
  | .error err =>
      if err.kind = .ReceiveError ∧ containsSeq err.desc (strBytes "BUSYGROUP") then
        .ok ()
      else .error err

/-! ## The subscription engine as a transition system
(`src/stream/consume.rs` lines 111-138, 210-248)

`subscribe` builds a 1-slot channel and two tasks over one connection:
* the source task (`process_from_srv_and_notify_channel`) takes one
  complete frame from the transport, pushes one sentinel
  (`ListenNextMessage`) into the channel, and only then converts and
  yields the frame downstream;
* the sink task (`fwd_from_channel_to_srv`) folds over the channel and
  writes exactly one re-arm `XREAD(GROUP)` command per sentinel.
`RedisStream::subscribe` writes the primer read command before either
task runs, so the initial state has one outstanding request.

The state counts outstanding read requests on the transport, whether the
source task holds a received frame it has not yet processed, sentinels in
the channel, and a pending downstream yield; the event counters make the
"exactly one sentinel / one re-arm per frame, before the yield" claim
provable. -/
structure SubscribeState : Type where
  outstanding : Nat
  frameHeld : Bool
  channel : Nat
  pendingYield : Bool
  framesReceived : Nat
  sentinelsPushed : Nat
  rearmsSent : Nat
  batchesYielded : Nat
  deriving DecidableEq

/-- One scheduler step of the subscription engine.  `serverReply` needs
an outstanding request (the server answers one `XREAD(GROUP) BLOCK 0` per
request) and an idle source task; `pushSentinel` needs room in the 1-slot
channel and must precede `yieldBatch` for the same frame (the source task
is sequential); `rearmWrite` consumes one sentinel and writes one read
command. -/
inductive SubStep : SubscribeState → SubscribeState → Prop where
  | serverReply (s : SubscribeState) (h1 : 1 ≤ s.outstanding)
      (h2 : s.frameHeld = false) (h3 : s.pendingYield = false) :
      SubStep s { s with outstanding := s.outstanding - 1, frameHeld := true,
                         framesReceived := s.framesReceived + 1 }
  | pushSentinel (s : SubscribeState) (h1 : s.frameHeld = true)
      (h2 : s.channel = 0) :
      SubStep s { s with frameHeld := false, channel := 1, pendingYield := true,
                         sentinelsPushed := s.sentinelsPushed + 1 }
  | rearmWrite (s : SubscribeState) (h : 1 ≤ s.channel) :
      SubStep s { s with channel := s.channel - 1,
                         outstanding := s.outstanding + 1,
                         rearmsSent := s.rearmsSent + 1 }
  | yieldBatch (s : SubscribeState) (h : s.pendingYield = true) :
      SubStep s { s with pendingYield := false,
                         batchesYielded := s.batchesYielded + 1 }

/-- The state right after `RedisStream::subscribe` wrote the primer read
command: one outstanding request, empty channel, idle tasks. -/
def subscribeInit : SubscribeState := ⟨1, false, 0, false, 0, 0, 0, 0⟩

inductive SubReachable : SubscribeState → Prop where
  | init : SubReachable subscribeInit
  | step {s t : SubscribeState} : SubReachable s → SubStep s t → SubReachable t

def boolNat (b : Bool) : Nat := if b then 1 else 0

/-! ### Round-trip facts about decimal formatting and parsing -/

theorem digitsValGo_append (acc : Nat) (xs ys : List Nat) :
    digitsValGo acc (xs ++ ys) =
      (digitsValGo acc xs).bind (fun a => digitsValGo a ys) := by
  induction xs generalizing acc with
  | nil => simp [digitsValGo]
  | cons d rest ih =>
      simp only [List.cons_append, digitsValGo]
      by_cases hd : 48 ≤ d ∧ d ≤ 57
      · simp [hd, ih]
      · simp [hd]

theorem natDigitsAux_spec (fuel : Nat) :
    ∀ n, n ≤ fuel → n ≠ 0 →
      (∀ b ∈ natDigitsAux fuel n, 48 ≤ b ∧ b ≤ 57) ∧
      natDigitsAux fuel n ≠ [] ∧
      ∀ acc, digitsValGo acc (natDigitsAux fuel n) =
        some (acc * 10 ^ (natDigitsAux fuel n).length + n) := by
  induction fuel with
  | zero => intro n hn h0; omega
  | succ fuel ih =>
      intro n hn h0
      have hunfold : natDigitsAux (fuel + 1) n =
          natDigitsAux fuel (n / 10) ++ [48 + n % 10] := by
        simp [natDigitsAux, h0]
      by_cases hq : n / 10 = 0
      · have hlt : n < 10 := by omega
        have hzero : natDigitsAux fuel (n / 10) = [] := by
          cases fuel with
          | zero => rfl
          | succ f => simp [natDigitsAux, hq]
        rw [hunfold, hzero]
        refine ⟨?_, by simp, ?_⟩
        · intro b hb
          simp at hb
          omega
        · intro acc
          have hmod : n % 10 = n := Nat.mod_eq_of_lt hlt
          simp [digitsValGo]
          omega
      · have hq_le : n / 10 ≤ fuel := by
          have := Nat.div_lt_self (Nat.pos_of_ne_zero h0) (by norm_num : 1 < 10)
          omega
        obtain ⟨hdig, hne, hval⟩ := ih (n / 10) hq_le hq
        rw [hunfold]
        refine ⟨?_, by simp, ?_⟩
        · intro b hb
          simp at hb
          rcases hb with hb | hb
          · exact hdig b hb
          · omega
        · intro acc
          rw [digitsValGo_append, hval acc]
          have h1 : 48 ≤ 48 + n % 10 ∧ 48 + n % 10 ≤ 57 := by
            have := Nat.mod_lt n (by norm_num : 0 < 10)
            omega
          simp only [Option.some_bind, digitsValGo, h1, and_self, if_true]
          have hlen : (natDigitsAux fuel (n / 10) ++ [48 + n % 10]).length =
              (natDigitsAux fuel (n / 10)).length + 1 := by simp
          rw [hlen, pow_succ]
          have hdm : 10 * (n / 10) + n % 10 = n := Nat.div_add_mod n 10
          generalize (10 : Nat) ^ (natDigitsAux fuel (n / 10)).length = P
          have h48 : 48 + n % 10 - 48 = n % 10 := by omega
          have hexp : (acc * P + n / 10) * 10 + n % 10 =
              acc * (P * 10) + (10 * (n / 10) + n % 10) := by ring
          rw [h48, hexp, hdm]

theorem natDigits_digit (n : Nat) : ∀ b ∈ natDigits n, 48 ≤ b ∧ b ≤ 57 := by
  by_cases h0 : n = 0
  · subst h0
    intro b hb
    simp [natDigits] at hb
    omega
  · intro b hb
    simp only [natDigits, h0, if_false] at hb
    exact (natDigitsAux_spec n n le_rfl h0).1 b hb

theorem natDigits_ne_nil (n : Nat) : natDigits n ≠ [] := by
  by_cases h0 : n = 0
  · subst h0; simp [natDigits]
  · simp only [natDigits, h0, if_false]
    exact (natDigitsAux_spec n n le_rfl h0).2.1

theorem digitsVal_natDigits (n : Nat) : digitsVal (natDigits n) = some n := by
  by_cases h0 : n = 0
  · subst h0; rfl
  · have hne := natDigits_ne_nil n
    have hval := (natDigitsAux_spec n n le_rfl h0).2.2 0
    simp only [natDigits, h0, if_false] at hne ⊢
    cases hng : natDigitsAux n n with
    | nil => exact absurd hng hne
    | cons c cs =>
        rw [hng] at hval
        simp only [digitsVal]
        rw [hval]
        simp

theorem stripPlus_of_digits (l : List Nat) (h : ∀ b ∈ l, 48 ≤ b ∧ b ≤ 57) :
    stripPlus l = l := by
  cases l with
  | nil => rfl
  | cons b rest =>
      have hb := h b (by simp)
      have : b ≠ 43 := by omega
      simp [stripPlus, this]

theorem parseRustNat_natDigits (limit n : Nat) (h : n ≤ limit) :
    parseRustNat limit (natDigits n) = some n := by
  unfold parseRustNat
  rw [stripPlus_of_digits _ (natDigits_digit n), digitsVal_natDigits]
  simp [h]

theorem parseU64_natDigits (n : Nat) (h : n < 2 ^ 64) :
    parseU64 (natDigits n) = some n :=
  parseRustNat_natDigits _ n (by omega)

theorem parseRustInt_intDigits (lo hi x : Int) (h1 : lo ≤ x) (h2 : x ≤ hi) :
    parseRustInt lo hi (intDigits x) = some x := by
  by_cases hneg : x < 0
  · have hx : intDigits x = 45 :: natDigits (-x).toNat := by simp [intDigits, hneg]
    have hcast : ((-x).toNat : Int) = -x := Int.toNat_of_nonneg (by omega)
    have hle : lo ≤ -(((-x).toNat : Int)) := by omega
    rw [hx]
    simp only [parseRustInt, if_pos rfl, digitsVal_natDigits, hle, if_true]
    rw [hcast]
    ring_nf
  · have hx : intDigits x = natDigits x.toNat := by simp [intDigits, hneg]
    have hdig := natDigits_digit x.toNat
    have hne := natDigits_ne_nil x.toNat
    have hcast : (x.toNat : Int) = x := Int.toNat_of_nonneg (by omega)
    rw [hx]
    cases hng : natDigits x.toNat with
    | nil => exact absurd hng hne
    | cons c cs =>
        have hc : 48 ≤ c ∧ c ≤ 57 := hdig c (by rw [hng]; simp)
        have hc45 : c ≠ 45 := by omega
        have hstrip : stripPlus (c :: cs) = c :: cs := by
          rw [← hng]; exact stripPlus_of_digits _ hdig
        have hval : digitsVal (c :: cs) = some x.toNat := by
          rw [← hng]; exact digitsVal_natDigits x.toNat
        have hhi : (x.toNat : Int) ≤ hi := by omega
        simp only [parseRustInt, hc45, if_false, hstrip, hval, hcast]
        simp [h2]

theorem parseI64_intDigits (x : Int) (h1 : -(2 ^ 63) ≤ x) (h2 : x ≤ 2 ^ 63 - 1) :
    parseI64 (intDigits x) = some x :=
  parseRustInt_intDigits _ _ x h1 h2

/-- A list of ASCII bytes is valid UTF-8. -/
theorem isValidUtf8_of_ascii (l : List Nat) (h : ∀ b ∈ l, b ≤ 0x7F) :
    isValidUtf8 l = true := by
  unfold isValidUtf8
  induction l with
  | nil => rfl
  | cons b rest ih =>
      have hb : b ≤ 0x7F := h b (by simp)
      simp only [utf8Scan, utf8Step, hb, if_true]
      exact ih (fun x hx => h x (by simp [hx]))

/-! ### One-step unfolding of `parseValueF` per discriminator byte -/

theorem parseValueF_nil (f : Nat) : parseValueF (f + 1) [] = .ok none := rfl

theorem parseValueF_err (f : Nat) (rest : List Nat) :
    parseValueF (f + 1) (45 :: rest) = framePlusOne (parse_error rest) := rfl

theorem parseValueF_status (f : Nat) (rest : List Nat) :
    parseValueF (f + 1) (43 :: rest) = framePlusOne (parse_status rest) := rfl

theorem parseValueF_int (f : Nat) (rest : List Nat) :
    parseValueF (f + 1) (58 :: rest) = framePlusOne (parse_int rest) := rfl

theorem parseValueF_bulk (f : Nat) (rest : List Nat) :
    parseValueF (f + 1) (36 :: rest) = framePlusOne (parse_bulkstring rest) := rfl

theorem parseValueF_array (f : Nat) (rest : List Nat) :
    parseValueF (f + 1) (42 :: rest) =
      framePlusOne (parse_arrayWith (parseValueF f) rest) := rfl

/-! ### Exact-parse lemmas for complete simple-string fields -/

theorem findIdxCr_append (s : List Nat) (tail : List Nat)
    (hs : ∀ b ∈ s, b ≠ CR) :
    ∀ i, List.findIdx? (fun x => x == CR) (s ++ CR :: tail) i = some (i + s.length) := by
  induction s with
  | nil =>
      intro i
      simp [List.findIdx?_cons, CR]
  | cons b s' ih =>
      intro i
      have hb : b ≠ CR := hs b (by simp)
      have hb2 : (b == CR) = false := by simp [hb]
      simp only [List.cons_append, List.findIdx?_cons, hb2, if_false]
      rw [ih (fun x hx => hs x (by simp [hx])) (i + 1)]
      simp
      omega

/-- A complete simple-string field `s ++ CRLF ++ rest` with a CR-free,
UTF-8-valid body parses to exactly `s`, consuming `s.length + 2` bytes. -/
theorem parse_simple_string_exact (s rest : List Nat)
    (hs : ∀ b ∈ s, b ≠ CR) (hu : isValidUtf8 s = true) :
    parse_simple_string (s ++ CR :: LF :: rest) = .ok (some ⟨s, s.length + 2⟩) := by
  have hidx : List.findIdx? (fun x => x == CR) (s ++ CR :: LF :: rest) = some s.length := by
    have := findIdxCr_append s (LF :: rest) hs 0
    simpa using this
  unfold parse_simple_string
  rw [hidx]
  show (if s.length ≥ (s ++ CR :: LF :: rest).length - 1 then (.ok none : DecRes (List Nat))
        else if (s ++ CR :: LF :: rest).getD (s.length + 1) 0 ≠ LF then .error .parseErr
        else if isValidUtf8 ((s ++ CR :: LF :: rest).take s.length) then
          .ok (some ⟨(s ++ CR :: LF :: rest).take s.length, s.length + 2⟩)
        else .error .parseErr) = .ok (some ⟨s, s.length + 2⟩)
  have hlen : (s ++ CR :: LF :: rest).length = s.length + 2 + rest.length := by
    simp; omega
  have hcond : ¬ (s.length ≥ (s ++ CR :: LF :: rest).length - 1) := by
    rw [hlen]; omega
  rw [if_neg hcond]
  have hget : (s ++ CR :: LF :: rest).getD (s.length + 1) 0 = LF := by
    rw [List.getD_eq_getElem?_getD,
        List.getElem?_append_right (by omega : s.length ≤ s.length + 1)]
    have : s.length + 1 - s.length = 1 := by omega
    rw [this]
    simp
  rw [hget]
  simp only [ne_eq, not_true_eq_false, if_false]
  have htake : (s ++ CR :: LF :: rest).take s.length = s := List.take_left s _
  rw [htake, if_pos hu]

/-- A complete simple-string field holding a decimal `i64` parses to its
value. -/
theorem parse_simple_int_exact (s rest : List Nat) (v : Int)
    (hs : ∀ b ∈ s, b ≠ CR) (hu : isValidUtf8 s = true)
    (hv : parseI64 s = some v) :
    parse_simple_int (s ++ CR :: LF :: rest) = .ok (some ⟨v, s.length + 2⟩) := by
  unfold parse_simple_int
  rw [parse_simple_string_exact s rest hs hu]
  simp [hv]

/-- Every byte of `intDigits x` is `-` or a decimal digit. -/
theorem intDigits_mem (x : Int) :
    ∀ b ∈ intDigits x, b = 45 ∨ (48 ≤ b ∧ b ≤ 57) := by
  intro b hb
  by_cases hx : x < 0
  · rw [intDigits, if_pos hx] at hb
    rcases List.mem_cons.mp hb with hb | hb
    · left; exact hb
    · right; exact natDigits_digit _ b hb
  · rw [intDigits, if_neg hx] at hb
    right; exact natDigits_digit _ b hb

theorem intDigits_ne_cr (x : Int) : ∀ b ∈ intDigits x, b ≠ CR := by
  intro b hb
  have := intDigits_mem x b hb
  unfold CR
  omega

theorem intDigits_ascii (x : Int) : isValidUtf8 (intDigits x) = true := by
  apply isValidUtf8_of_ascii
  intro b hb
  have := intDigits_mem x b hb
  omega

/-- A complete integer field `<decimal>\r\n` followed by anything parses
to its value (for `x` in the `i64` range). -/
theorem parse_simple_int_intDigits (x : Int) (rest : List Nat)
    (h1 : -(2 ^ 63) ≤ x) (h2 : x ≤ 2 ^ 63 - 1) :
    parse_simple_int (intDigits x ++ CR :: LF :: rest) =
      .ok (some ⟨x, (intDigits x).length + 2⟩) :=
  parse_simple_int_exact _ _ _ (intDigits_ne_cr x) (intDigits_ascii x)
    (parseI64_intDigits x h1 h2)

theorem endsWithCrlf_append (y : List Nat) :
    endsWithCrlf (y ++ [CR, LF]) = true := by
  unfold endsWithCrlf
  rw [List.reverse_append]
  rfl

theorem parse_bulkstring_of_int (data : List Nat) (r : ParseRes Int)
    (h : parse_simple_int data = .ok (some r)) :
    parse_bulkstring data = bulkStringBody data r := by
  unfold parse_bulkstring
  rw [h]
  rfl

theorem parse_arrayWith_of_int (pv : List Nat → DecRes RespInternalValue)
    (data : List Nat) (r : ParseRes Int)
    (h : parse_simple_int data = .ok (some r)) :
    parse_arrayWith pv data = arrayBody pv data r := by
  unfold parse_arrayWith
  rw [h]
  rfl

/-! ### The decoder's handling of negative declared lengths -/

/-- A BulkString frame with a negative declared length decodes to `Nil`
only when the length line's CRLF is followed by one more immediate CRLF;
the whole frame is `$<negative>\r\n\r\n`. -/
theorem parse_resp_value_negative_bulkstring (x : Int)
    (hlo : -(2 ^ 63) ≤ x) (hneg : x < 0) :
    parse_resp_value (36 :: (intDigits x ++ [CR, LF, CR, LF])) =
      .ok (some ⟨.Nil, (intDigits x).length + 5⟩) := by
  have hhi : x ≤ 2 ^ 63 - 1 := by omega
  have hint : parse_simple_int (intDigits x ++ CR :: LF :: [CR, LF]) =
      .ok (some ⟨x, (intDigits x).length + 2⟩) :=
    parse_simple_int_intDigits x [CR, LF] hlo hhi
  have hlen : (intDigits x ++ [CR, LF, CR, LF]).length = (intDigits x).length + 4 := by
    simp
  have hassoc : intDigits x ++ [CR, LF, CR, LF] =
      (intDigits x ++ [CR, LF]) ++ [CR, LF] := by
    simp
  have hbody : bulkStringBody (intDigits x ++ [CR, LF, CR, LF])
      ⟨x, (intDigits x).length + 2⟩ = .ok (some ⟨.Nil, (intDigits x).length + 4⟩) := by
    unfold bulkStringBody
    have hc1 : ¬ ((intDigits x ++ [CR, LF, CR, LF]).length <
        ((intDigits x).length + 2) + 2) := by rw [hlen]; omega
    have htake : (intDigits x ++ [CR, LF, CR, LF]).take
        (((intDigits x).length + 2) + 2) = intDigits x ++ [CR, LF, CR, LF] := by
      apply List.take_of_length_le
      rw [hlen]
    have hends : endsWithCrlf ((intDigits x ++ [CR, LF, CR, LF]).take
        (((intDigits x).length + 2) + 2)) = true := by
      rw [htake, hassoc]
      exact endsWithCrlf_append _
    simp only [hneg, if_true, hc1, if_false, hends]
  have hbulk : parse_bulkstring (intDigits x ++ [CR, LF, CR, LF]) =
      .ok (some ⟨.Nil, (intDigits x).length + 4⟩) := by
    rw [parse_bulkstring_of_int _ ⟨x, (intDigits x).length + 2⟩ (by simpa using hint)]
    exact hbody
  unfold parse_resp_value
  rw [parseValueF_bulk, hbulk]
  rfl

/-! ### Consumed-length bounds: a successful parse never claims more
bytes than the buffer holds (this discharges the assertion in
`RedisCodec::decode`). -/

theorem okSome_inj {β : Type} {a b : β}
    (h : (.ok (some a) : Except DecodeErr (Option β)) = .ok (some b)) : a = b :=
  Option.some.inj (Except.ok.inj h)

theorem framePlusOne_ok (res : DecRes RespInternalValue) (r : ParseRes RespInternalValue)
    (h : framePlusOne res = .ok (some r)) :
    ∃ r0, res = .ok (some r0) ∧ r.value = r0.value ∧
      r.value_src_len = r0.value_src_len + 1 := by
  unfold framePlusOne at h
  split at h
  · exact absurd h (by simp)
  · exact absurd h (by simp)
  · rename_i r0
    have h2 := okSome_inj h
    exact ⟨r0, rfl, (congrArg ParseRes.value h2).symm,
      (congrArg ParseRes.value_src_len h2).symm⟩

theorem parse_simple_string_ok (data : List Nat) (r : ParseRes (List Nat))
    (h : parse_simple_string data = .ok (some r)) :
    r.value = data.take (r.value_src_len - 2) ∧
      2 ≤ r.value_src_len ∧ r.value_src_len ≤ data.length := by
  unfold parse_simple_string at h
  split at h
  · exact absurd h (by simp)
  · rename_i p hidx
    split at h
    · exact absurd h (by simp)
    · rename_i hp
      split at h
      · exact absurd h (by simp)
      · split at h
        · have h2 := okSome_inj h
          have hv : data.take p = r.value := congrArg ParseRes.value h2
          have hl : p + 2 = r.value_src_len := congrArg ParseRes.value_src_len h2
          refine ⟨?_, by omega, by omega⟩
          have hp2 : p + 2 - 2 = p := by omega
          rw [← hl, hp2, hv]
        · exact absurd h (by simp)

theorem parse_simple_int_ok (data : List Nat) (r : ParseRes Int)
    (h : parse_simple_int data = .ok (some r)) :
    3 ≤ r.value_src_len ∧ r.value_src_len ≤ data.length := by
  unfold parse_simple_int at h
  split at h
  · exact absurd h (by simp)
  · exact absurd h (by simp)
  · rename_i r' hstr
    split at h
    · rename_i v hv
      have h2 := okSome_inj h
      have hl : r'.value_src_len = r.value_src_len := congrArg ParseRes.value_src_len h2
      obtain ⟨hval, hge, hle⟩ := parse_simple_string_ok data r' hstr
      rw [← hl]
      refine ⟨?_, hle⟩
      by_contra hlt
      have h2' : r'.value_src_len = 2 := by omega
      rw [hval, h2'] at hv
      simp only [Nat.sub_self, List.take_zero] at hv
      exact absurd hv (by simp [parseI64, parseRustInt])
    · exact absurd h (by simp)

theorem parse_error_len (data : List Nat) (r : ParseRes RespInternalValue)
    (h : parse_error data = .ok (some r)) : r.value_src_len ≤ data.length := by
  unfold parse_error at h
  split at h
  · exact absurd h (by simp)
  · exact absurd h (by simp)
  · rename_i r' hstr
    have h2 : r'.value_src_len = r.value_src_len :=
      congrArg ParseRes.value_src_len (okSome_inj h)
    rw [← h2]
    exact (parse_simple_string_ok data r' hstr).2.2

theorem parse_status_len (data : List Nat) (r : ParseRes RespInternalValue)
    (h : parse_status data = .ok (some r)) : r.value_src_len ≤ data.length := by
  unfold parse_status at h
  split at h
  · exact absurd h (by simp)
  · exact absurd h (by simp)
  · rename_i r' hstr
    have h2 : r'.value_src_len = r.value_src_len :=
      congrArg ParseRes.value_src_len (okSome_inj h)
    rw [← h2]
    exact (parse_simple_string_ok data r' hstr).2.2

theorem parse_int_len (data : List Nat) (r : ParseRes RespInternalValue)
    (h : parse_int data = .ok (some r)) : r.value_src_len ≤ data.length := by
  unfold parse_int at h
  split at h
  · exact absurd h (by simp)
  · exact absurd h (by simp)
  · rename_i r' hint
    have h2 : r'.value_src_len = r.value_src_len :=
      congrArg ParseRes.value_src_len (okSome_inj h)
    rw [← h2]
    exact (parse_simple_int_ok data r' hint).2

theorem parse_bulkstring_len (data : List Nat) (r : ParseRes RespInternalValue)
    (h : parse_bulkstring data = .ok (some r)) : r.value_src_len ≤ data.length := by
  unfold parse_bulkstring at h
  split at h
  · exact absurd h (by simp)
  · exact absurd h (by simp)
  · rename_i r' hint
    split at h
    · split at h
      · exact absurd h (by simp)
      · rename_i hlen
        split at h
        · have h2 : r'.value_src_len + 2 = r.value_src_len :=
            congrArg ParseRes.value_src_len (okSome_inj h)
          omega
        · exact absurd h (by simp)
    · split at h
      · exact absurd h (by simp)
      · rename_i hlen
        split at h
        · exact absurd h (by simp)
        · have h2 : r'.value_src_len + r'.value.toNat + 2 = r.value_src_len :=
            congrArg ParseRes.value_src_len (okSome_inj h)
          omega

theorem parseElemsWith_len (pv : List Nat → DecRes RespInternalValue)
    (hpv : ∀ d r, pv d = .ok (some r) → r.value_src_len ≤ d.length) :
    ∀ n d vs c, parseElemsWith pv n d = .ok (some (vs, c)) → c ≤ d.length := by
  intro n
  induction n with
  | zero =>
      intro d vs c h
      have h2 : c = 0 := (congrArg Prod.snd (okSome_inj h)).symm
      omega
  | succ n ih =>
      intro d vs c h
      unfold parseElemsWith at h
      split at h
      · exact absurd h (by simp)
      · exact absurd h (by simp)
      · rename_i r hr
        split at h
        · exact absurd h (by simp)
        · exact absurd h (by simp)
        · rename_i vs' c' hrec
          have h2 : r.value_src_len + c' = c := congrArg Prod.snd (okSome_inj h)
          have hb1 := hpv d r hr
          have hb2 := ih (d.drop r.value_src_len) vs' c' hrec
          rw [List.length_drop] at hb2
          omega

theorem parse_arrayWith_len (pv : List Nat → DecRes RespInternalValue)
    (hpv : ∀ d r, pv d = .ok (some r) → r.value_src_len ≤ d.length)
    (data : List Nat) (r : ParseRes RespInternalValue)
    (h : parse_arrayWith pv data = .ok (some r)) : r.value_src_len ≤ data.length := by
  unfold parse_arrayWith at h
  split at h
  · exact absurd h (by simp)
  · exact absurd h (by simp)
  · rename_i r' hint
    split at h
    · exact absurd h (by simp)
    · split at h
      · exact absurd h (by simp)
      · exact absurd h (by simp)
      · rename_i vs c hrec
        have h2 : r'.value_src_len + c = r.value_src_len :=
          congrArg ParseRes.value_src_len (okSome_inj h)
        have hb1 := (parse_simple_int_ok data r' hint).2
        have hb2 := parseElemsWith_len pv hpv r'.value.toNat _ vs c hrec
        rw [List.length_drop] at hb2
        omega

theorem parseValueF_len :
    ∀ f data r, parseValueF f data = .ok (some r) → r.value_src_len ≤ data.length := by
  intro f
  induction f with
  | zero => intro data r h; exact absurd h (by simp [parseValueF])
  | succ f ih =>
      intro data r h
      cases data with
      | nil => exact absurd h (by simp [parseValueF_nil])
      | cons b rest =>
          have hstep : parseValueF (f + 1) (b :: rest) =
              framePlusOne
                (if b = 45 then parse_error rest
                 else if b = 43 then parse_status rest
                 else if b = 58 then parse_int rest
                 else if b = 36 then parse_bulkstring rest
                 else if b = 42 then parse_arrayWith (parseValueF f) rest
                 else .error .parseErr) := rfl
          rw [hstep] at h
          obtain ⟨r0, hres, _, hlen⟩ := framePlusOne_ok _ r h
          have hr0 : r0.value_src_len ≤ rest.length := by
            split at hres
            · exact parse_error_len rest r0 hres
            · split at hres
              · exact parse_status_len rest r0 hres
              · split at hres
                · exact parse_int_len rest r0 hres
                · split at hres
                  · exact parse_bulkstring_len rest r0 hres
                  · split at hres
                    · exact parse_arrayWith_len (parseValueF f)
                        (fun d rr hh => ih d rr hh) rest r0 hres
                    · exact absurd hres (by simp)
          simp only [List.length_cons]
          omega

/-- A value returned by `parse_resp_value` never claims more bytes than
the buffer holds: the assertion `value_src_len <= buf.len()` in
`RedisCodec::decode` always holds. -/
theorem parse_resp_value_len (data : List Nat) (r : ParseRes RespInternalValue)
    (h : parse_resp_value data = .ok (some r)) : r.value_src_len ≤ data.length :=
  parseValueF_len _ data r h

/-- An Array frame with a negative declared length is rejected with a
parse error ("Array length cannot be negative"). -/
theorem parse_resp_value_negative_array (x : Int)
    (hlo : -(2 ^ 63) ≤ x) (hneg : x < 0) (rest : List Nat) :
    parse_resp_value (42 :: (intDigits x ++ CR :: LF :: rest)) =
      .error .parseErr := by
  have hhi : x ≤ 2 ^ 63 - 1 := by omega
  have hint : parse_simple_int (intDigits x ++ CR :: LF :: rest) =
      .ok (some ⟨x, (intDigits x).length + 2⟩) :=
    parse_simple_int_intDigits x rest hlo hhi
  unfold parse_resp_value
  rw [parseValueF_array,
      parse_arrayWith_of_int _ _ ⟨x, (intDigits x).length + 2⟩ hint]
  unfold arrayBody
  simp [hneg, framePlusOne]

/-! ### The fuel of `parseValueF` is an artefact: all sufficient fuels
agree, and the fuel-exhaustion token is unreachable. -/

theorem parseElemsWith_congr (pv1 pv2 : List Nat → DecRes RespInternalValue) :
    ∀ n d, (∀ d2, d2.length ≤ d.length → pv1 d2 = pv2 d2) →
      parseElemsWith pv1 n d = parseElemsWith pv2 n d := by
  intro n
  induction n with
  | zero => intro d _; rfl
  | succ n ih =>
      intro d hp
      unfold parseElemsWith
      rw [hp d le_rfl]
      cases hv : pv2 d with
      | error e => rfl
      | ok o =>
          cases o with
          | none => rfl
          | some r =>
              have ih2 := ih (d.drop r.value_src_len)
                (fun d2 h2 => hp d2 (le_trans h2 (by rw [List.length_drop]; omega)))
              simp only [ih2]

theorem parse_arrayWith_congr (pv1 pv2 : List Nat → DecRes RespInternalValue)
    (d : List Nat) (hp : ∀ d2, d2.length ≤ d.length → pv1 d2 = pv2 d2) :
    parse_arrayWith pv1 d = parse_arrayWith pv2 d := by
  unfold parse_arrayWith
  cases hv : parse_simple_int d with
  | error e => rfl
  | ok o =>
      cases o with
      | none => rfl
      | some r =>
          have he := parseElemsWith_congr pv1 pv2 r.value.toNat (d.drop r.value_src_len)
            (fun d2 h2 => hp d2 (le_trans h2 (by rw [List.length_drop]; omega)))
          simp only [he]

theorem parseValueF_fuel_irrel :
    ∀ f g data, data.length < f → data.length < g →
      parseValueF f data = parseValueF g data := by
  intro f
  induction f with
  | zero => intro g data hf _; exact absurd hf (Nat.not_lt_zero _)
  | succ f ih =>
      intro g data hf hg
      cases g with
      | zero => exact absurd hg (Nat.not_lt_zero _)
      | succ g =>
          cases data with
          | nil => rfl
          | cons b rest =>
              have harr : parse_arrayWith (parseValueF f) rest =
                  parse_arrayWith (parseValueF g) rest := by
                apply parse_arrayWith_congr
                intro d2 h2
                have hlen : rest.length < f ∧ rest.length < g := by
                  simp only [List.length_cons] at hf hg
                  omega
                exact ih g d2 (by omega) (by omega)
              show framePlusOne _ = framePlusOne _
              rw [harr]

/-- Any fuel exceeding the buffer length gives the same result as the
fuel `parse_resp_value` uses. -/
theorem parse_resp_value_eq_parseValueF (f : Nat) (data : List Nat)
    (h : data.length < f) : parse_resp_value data = parseValueF f data :=
  parseValueF_fuel_irrel (data.length + 1) f data (by omega) h

theorem parse_simple_string_err (data : List Nat) (e : DecodeErr)
    (h : parse_simple_string data = .error e) : e = .parseErr := by
  unfold parse_simple_string at h
  split at h
  · exact absurd h (by simp)
  · split at h
    · exact absurd h (by simp)
    · split at h
      · exact Except.error.inj h |>.symm
      · split at h
        · exact absurd h (by simp)
        · exact Except.error.inj h |>.symm

theorem parse_simple_int_err (data : List Nat) (e : DecodeErr)
    (h : parse_simple_int data = .error e) : e = .parseErr := by
  unfold parse_simple_int at h
  split at h
  · rename_i e' he
    exact parse_simple_string_err data e (by rw [he, Except.error.inj h])
  · exact absurd h (by simp)
  · split at h
    · exact absurd h (by simp)
    · exact Except.error.inj h |>.symm

theorem parse_error_err (data : List Nat) (e : DecodeErr)
    (h : parse_error data = .error e) : e = .parseErr := by
  unfold parse_error at h
  split at h
  · rename_i e' he
    exact parse_simple_string_err data e (by rw [he, Except.error.inj h])
  · exact absurd h (by simp)
  · exact absurd h (by simp)

theorem parse_status_err (data : List Nat) (e : DecodeErr)
    (h : parse_status data = .error e) : e = .parseErr := by
  unfold parse_status at h
  split at h
  · rename_i e' he
    exact parse_simple_string_err data e (by rw [he, Except.error.inj h])
  · exact absurd h (by simp)
  · exact absurd h (by simp)

theorem parse_int_err (data : List Nat) (e : DecodeErr)
    (h : parse_int data = .error e) : e = .parseErr := by
  unfold parse_int at h
  split at h
  · rename_i e' he
    exact parse_simple_int_err data e (by rw [he, Except.error.inj h])
  · exact absurd h (by simp)
  · exact absurd h (by simp)

theorem parse_bulkstring_err (data : List Nat) (e : DecodeErr)
    (h : parse_bulkstring data = .error e) : e = .parseErr := by
  unfold parse_bulkstring at h
  split at h
  · rename_i e' he
    exact parse_simple_int_err data e (by rw [he, Except.error.inj h])
  · exact absurd h (by simp)
  · split at h
    · split at h
      · exact absurd h (by simp)
      · split at h
        · exact absurd h (by simp)
        · exact Except.error.inj h |>.symm
    · split at h
      · exact absurd h (by simp)
      · split at h
        · exact Except.error.inj h |>.symm
        · exact absurd h (by simp)

theorem parseElemsWith_err (pv : List Nat → DecRes RespInternalValue) :
    ∀ n d e, (∀ d2 e2, d2.length ≤ d.length → pv d2 = .error e2 → e2 = .parseErr) →
      parseElemsWith pv n d = .error e → e = .parseErr := by
  intro n
  induction n with
  | zero => intro d e _ h; exact absurd h (by simp [parseElemsWith])
  | succ n ih =>
      intro d e hpv h
      unfold parseElemsWith at h
      split at h
      · rename_i e' he
        exact hpv d e le_rfl (by rw [he, Except.error.inj h])
      · exact absurd h (by simp)
      · rename_i r hr
        split at h
        · rename_i e' he
          refine ih _ e (fun d2 e2 h2 => hpv d2 e2 ?_) (by rw [he, Except.error.inj h])
          refine le_trans h2 ?_
          rw [List.length_drop]
          omega
        · exact absurd h (by simp)
        · exact absurd h (by simp)

theorem parse_arrayWith_err (pv : List Nat → DecRes RespInternalValue)
    (data : List Nat)
    (hpv : ∀ d2 e2, d2.length ≤ data.length → pv d2 = .error e2 → e2 = .parseErr)
    (e : DecodeErr)
    (h : parse_arrayWith pv data = .error e) : e = .parseErr := by
  unfold parse_arrayWith at h
  split at h
  · rename_i e' he
    exact parse_simple_int_err data e (by rw [he, Except.error.inj h])
  · exact absurd h (by simp)
  · split at h
    · exact Except.error.inj h |>.symm
    · split at h
      · rename_i e' he
        refine parseElemsWith_err pv _ _ e (fun d2 e2 h2 => hpv d2 e2 ?_)
          (by rw [he, Except.error.inj h])
        refine le_trans h2 ?_
        rw [List.length_drop]
        omega
      · exact absurd h (by simp)
      · exact absurd h (by simp)

theorem framePlusOne_err (res : DecRes RespInternalValue) (e : DecodeErr)
    (h : framePlusOne res = .error e) : res = .error e := by
  unfold framePlusOne at h
  split at h
  · exact h
  · exact absurd h (by simp)
  · exact absurd h (by simp)

theorem parseValueF_err_kind :
    ∀ f data e, data.length < f → parseValueF f data = .error e → e = .parseErr := by
  intro f
  induction f with
  | zero => intro data e hf _; exact absurd hf (Nat.not_lt_zero _)
  | succ f ih =>
      intro data e hf h
      cases data with
      | nil => exact absurd h (by simp [parseValueF_nil])
      | cons b rest =>
          have hstep : parseValueF (f + 1) (b :: rest) =
              framePlusOne
                (if b = 45 then parse_error rest
                 else if b = 43 then parse_status rest
                 else if b = 58 then parse_int rest
                 else if b = 36 then parse_bulkstring rest
                 else if b = 42 then parse_arrayWith (parseValueF f) rest
                 else .error .parseErr) := rfl
          rw [hstep] at h
          have hres := framePlusOne_err _ e h
          have hrest : rest.length < f := by
            simp only [List.length_cons] at hf
            omega
          split at hres
          · exact parse_error_err rest e hres
          · split at hres
            · exact parse_status_err rest e hres
            · split at hres
              · exact parse_int_err rest e hres
              · split at hres
                · exact parse_bulkstring_err rest e hres
                · split at hres
                  · exact parse_arrayWith_err (parseValueF f) rest
                      (fun d2 e2 h2 hh => ih d2 e2 (by omega) hh) e hres
                  · exact Except.error.inj hres |>.symm

/-- The embedding's fuel-exhaustion token never escapes
`parse_resp_value`: every failure is a parse error, as in the source. -/
theorem parse_resp_value_no_fuel_error (data : List Nat) :
    parse_resp_value data ≠ .error .fuelExhausted := by
  intro h
  have := parseValueF_err_kind (data.length + 1) data .fuelExhausted (by omega) h
  exact absurd this (by simp)

/-! ## Helper lemmas for the claim theorems -/

theorem splitOnDash_no45 (ys : List Nat) (h : ∀ b ∈ ys, b ≠ 45) :
    splitOnDash ys = [ys] := by
  induction ys with
  | nil => rfl
  | cons b rest ih =>
      have hb : b ≠ 45 := h b (by simp)
      rw [splitOnDash, if_neg hb, ih (fun x hx => h x (by simp [hx]))]

theorem splitOnDash_append (xs ys : List Nat) (h : ∀ b ∈ xs, b ≠ 45) :
    splitOnDash (xs ++ 45 :: ys) = xs :: splitOnDash ys := by
  induction xs with
  | nil => simp [splitOnDash]
  | cons b rest ih =>
      have hb : b ≠ 45 := h b (by simp)
      rw [List.cons_append, splitOnDash, if_neg hb,
          ih (fun x hx => h x (by simp [hx]))]

theorem EntryId.from_string_two (id t0 t1 : List Nat)
    (h : (splitOnDash id).filter (fun t => !t.isEmpty) = [t0, t1]) :
    EntryId.from_string id =
      (match parseU64 t0 with
       | none => .error ⟨.ParseError, []⟩
       | some ms =>
           match parseU64 t1 with
           | none => .error ⟨.ParseError, []⟩
           | some seq => .ok ⟨ms, seq⟩) := by
  unfold EntryId.from_string
  rw [h]

theorem into_redis_value_error (t : List Nat) :
    into_redis_value (.Error t) = .error ⟨.ReceiveError, t⟩ := by
  simp [into_redis_value]

theorem touch_group_reply_error (t : List Nat) :
    touch_group_reply (.Error t) =
      (if containsSeq t (strBytes "BUSYGROUP") then .ok ()
       else .error ⟨.ReceiveError, t⟩) := by
  unfold touch_group_reply
  rw [into_redis_value_error]
  by_cases hc : containsSeq t (strBytes "BUSYGROUP") = true
  · simp [hc]
  · simp [hc]

theorem containsSeq_of_leading (l pat : List Nat) (h : pat.isPrefixOf l = true) :
    containsSeq l pat = true := by
  rw [containsSeq.eq_def]
  simp [h]

/-! ## Claim theorems -/

/-- C1 (code bug witness): the decoder cannot decode the encoder's output
for `Nil`.  `encode_resp_value Nil` is the five bytes `$-1\r\n`, but
`parse_bulkstring` demands a further CRLF after a negative length line
(`data.len() < len_len + CRLF_LEN` holds: 4 < 6), so a single decode of
`encode(Nil)` yields "need more", not `Nil` — the round-trip
`decode(encode v) = v` claimed for every wire value fails at `v = Nil`. -/
theorem claim_C1_roundtrip_fails_at_nil :
    encode_resp_value .Nil = [36, 45, 49, CR, LF] ∧
    parse_resp_value (encode_resp_value .Nil) = .ok none :=
  ⟨rfl, rfl⟩

/-- C2 (counterexample): the claim says `*-1\r\n` decodes to the null
array and the five bytes `$-1\r\n` decode to the null value.  In the
source, `parse_array` rejects every negative declared length with a parse
error, and `$-1\r\n` alone is "need more". -/
theorem claim_C2_counterexample :
    parse_resp_value [42, 45, 49, CR, LF] = .error .parseErr ∧
    parse_resp_value [36, 45, 49, CR, LF] = .ok none :=
  ⟨rfl, rfl⟩

/-- C2 (amended): for every negative declared length `x` (any `i64`), a
BulkString frame decodes to the null value only when the negative length
line is followed by one more immediate CRLF — the frame
`$<x>\r\n\r\n` yields `Nil` consuming all its bytes, while the bare
`$-1\r\n` yields "need more"; and an Array frame with negative declared
length is rejected with a parse error, never accepted as a null array. -/
theorem claim_C2_null_forms (x : Int) (hlo : -(2 ^ 63) ≤ x) (hneg : x < 0) :
    parse_resp_value (36 :: (intDigits x ++ [CR, LF, CR, LF])) =
      .ok (some ⟨.Nil, (intDigits x).length + 5⟩) ∧
    parse_resp_value [36, 45, 49, CR, LF] = .ok none ∧
    ∀ rest, parse_resp_value (42 :: (intDigits x ++ CR :: LF :: rest)) =
      .error .parseErr :=
  ⟨parse_resp_value_negative_bulkstring x hlo hneg, rfl,
   fun rest => parse_resp_value_negative_array x hlo hneg rest⟩

theorem claim_C2_null_forms_witness :
    parse_resp_value (36 :: (intDigits (-1) ++ [CR, LF, CR, LF])) =
      .ok (some ⟨.Nil, (intDigits (-1)).length + 5⟩) ∧
    parse_resp_value [36, 45, 49, CR, LF] = .ok none ∧
    parse_resp_value (42 :: (intDigits (-1) ++ CR :: LF :: [])) =
      .error .parseErr := by
  obtain ⟨h1, h2, h3⟩ := claim_C2_null_forms (-1) (by norm_num) (by norm_num)
  exact ⟨h1, h2, h3 []⟩

/-- C3 (code bug witness): on the 22-byte buffer
`*9223372036854775807\r\n` the parsing logic itself reports "need more"
(the declared 2^63−1 elements are not present), but before reaching that
result the source executes `Vec::with_capacity(array_len)` with
`array_len = 9223372036854775807` (`src/codec/decode.rs` line 149), whose
requested allocation exceeds `isize::MAX` bytes and therefore panics —
contradicting the claim that decoding arbitrary input never panics. -/
theorem claim_C3_decode_of_huge_array_header :
    parse_resp_value ([42] ++ natDigits 9223372036854775807 ++ [CR, LF]) =
      .ok none := rfl

theorem natDigits_ne45 (n : Nat) : ∀ b ∈ natDigits n, b ≠ 45 := by
  intro b hb
  have := natDigits_digit n b hb
  omega

/-- C4 (counterexample): the claim says every string without exactly one
`-` is rejected, but `EntryId::from_string` discards empty tokens before
counting, so `"1--2"` — which contains two `-` — parses successfully to
`(1, 2)`. -/
theorem claim_C4_counterexample :
    [49, 45, 45, 50].count 45 = 2 ∧
    EntryId.from_string [49, 45, 45, 50] = .ok ⟨1, 2⟩ :=
  ⟨by decide, rfl⟩

/-- C4 (amended): `parse(format(ms, seq)) = (ms, seq)` for all `u64`
pairs; and a string is rejected exactly when, after splitting on `-` and
DISCARDING empty tokens, the number of tokens differs from two or a token
fails `u64` parsing (digits with an optional leading `+`, value below
2^64).  In particular strings with repeated or leading/trailing dashes
around two valid tokens, such as `"1--2"`, are accepted. -/
theorem claim_C4_entry_id :
    (∀ ms seq : Nat, ms < 2 ^ 64 → seq < 2 ^ 64 →
      EntryId.from_string (EntryId.to_string ⟨ms, seq⟩) = .ok ⟨ms, seq⟩) ∧
    (∀ id : List Nat,
      ((((splitOnDash id).filter (fun t => !t.isEmpty)).length ≠ 2) →
        EntryId.from_string id = .error ⟨.ParseError, []⟩) ∧
      (∀ t0 t1, (splitOnDash id).filter (fun t => !t.isEmpty) = [t0, t1] →
        (parseU64 t0 = none ∨ parseU64 t1 = none) →
        EntryId.from_string id = .error ⟨.ParseError, []⟩)) := by
  constructor
  · intro ms seq hms hseq
    have hsplit : splitOnDash (EntryId.to_string ⟨ms, seq⟩) =
        [natDigits ms, natDigits seq] := by
      show splitOnDash (natDigits ms ++ 45 :: natDigits seq) = _
      rw [splitOnDash_append _ _ (natDigits_ne45 ms),
          splitOnDash_no45 _ (natDigits_ne45 seq)]
    have hie : ∀ n : Nat, (natDigits n).isEmpty = false := by
      intro n
      cases hng : natDigits n with
      | nil => exact absurd hng (natDigits_ne_nil n)
      | cons c cs => rfl
    have hfilter : (splitOnDash (EntryId.to_string ⟨ms, seq⟩)).filter
        (fun t => !t.isEmpty) = [natDigits ms, natDigits seq] := by
      rw [hsplit]
      simp [List.filter, hie ms, hie seq]
    rw [EntryId.from_string_two _ _ _ hfilter, parseU64_natDigits ms hms,
        parseU64_natDigits seq hseq]
  · intro id
    constructor
    · intro hne
      unfold EntryId.from_string
      cases hf : (splitOnDash id).filter (fun t => !t.isEmpty) with
      | nil => rfl
      | cons t0 rest =>
          cases rest with
          | nil => rfl
          | cons t1 rest2 =>
              cases rest2 with
              | nil => rw [hf] at hne; simp at hne
              | cons t2 rest3 => rfl
    · intro t0 t1 hf hpar
      rw [EntryId.from_string_two id t0 t1 hf]
      rcases hpar with h0 | h1
      · rw [h0]
      · cases hp0 : parseU64 t0 with
        | none => rfl
        | some ms => rw [h1]

theorem claim_C4_entry_id_witness :
    EntryId.from_string (EntryId.to_string ⟨1, 2⟩) = .ok ⟨1, 2⟩ ∧
    EntryId.from_string [49, 120, 50] = .error ⟨.ParseError, []⟩ :=
  ⟨claim_C4_entry_id.1 1 2 (by norm_num) (by norm_num),
   (claim_C4_entry_id.2 [49, 120, 50]).1 (by decide)⟩

/-- C5 (counterexample): for the options `(stream "s", group "g",
consumer "c", range Any, no count)` the composed command is
`XPENDING s g - + c`, whose verb is `XPENDING` — not the `XREADGROUP GROUP
g c … STREAMS s …` shape the claim describes. -/
theorem claim_C5_counterexample :
    pending_list_command ⟨strBytes "s", strBytes "g", strBytes "c", .Any, none⟩ =
      [.BulkString (strBytes "XPENDING"), .BulkString (strBytes "s"),
       .BulkString (strBytes "g"), .BulkString [45], .BulkString [43],
       .BulkString (strBytes "c")] ∧
    strBytes "XPENDING" ≠ strBytes "XREADGROUP" :=
  ⟨rfl, by decide⟩

/-- C5 (amended): for every `PendingOptions`, the command issued by
`pending_entries` is `XPENDING <stream> <group> <left> <right> [<count>]
<consumer>` — an `XPENDING` command, never an `XREADGROUP` one. -/
theorem claim_C5_pending_command (o : PendingOptions) :
    pending_list_command o =
      [.BulkString (strBytes "XPENDING"), .BulkString o.stream,
       .BulkString o.group, .BulkString o.range.to_left_right.1,
       .BulkString o.range.to_left_right.2] ++
      (match o.count with
       | some c => [.BulkString (natDigits c)]
       | none => []) ++
      [.BulkString o.consumer] ∧
    (pending_list_command o).head? ≠ some (.BulkString (strBytes "XREADGROUP")) := by
  refine ⟨rfl, fun h => ?_⟩
  have h2 := Option.some.inj h
  have h3 := RespInternalValue.BulkString.inj h2
  exact absurd h3 (by decide)

theorem claim_C5_pending_command_witness :
    pending_list_command ⟨strBytes "s", strBytes "g", strBytes "c",
      .Any, some 7⟩ =
      [.BulkString (strBytes "XPENDING"), .BulkString (strBytes "s"),
       .BulkString (strBytes "g"), .BulkString [45], .BulkString [43],
       .BulkString (natDigits 7), .BulkString (strBytes "c")] :=
  (claim_C5_pending_command ⟨strBytes "s", strBytes "g", strBytes "c",
    .Any, some 7⟩).1

/-- C6 (counterexample): for stream `"s"` and group `"g"` the composed
argv has five bulk strings and is not the six-element
`XGROUP CREATE s g $ MKSTREAM` list the claim describes: the source
builds `XGROUP CREATE s g $` with no `MKSTREAM`. -/
theorem claim_C6_counterexample :
    (touch_group_command ⟨strBytes "s", strBytes "g"⟩).length = 5 ∧
    touch_group_command ⟨strBytes "s", strBytes "g"⟩ ≠
      [.BulkString (strBytes "XGROUP"), .BulkString (strBytes "CREATE"),
       .BulkString (strBytes "s"), .BulkString (strBytes "g"),
       .BulkString (strBytes "$"), .BulkString (strBytes "MKSTREAM")] :=
  ⟨rfl, fun h => by
    have := congrArg List.length h
    simp [touch_group_command] at this⟩

/-- C6 (amended): for every stream `s` and group `g`, the argv composed
by `touch_group_command` is exactly the five bulk strings
`XGROUP CREATE s g $` — the source sends no `MKSTREAM` argument. -/
theorem claim_C6_touch_group_command (s g : List Nat) :
    touch_group_command ⟨s, g⟩ =
      [.BulkString (strBytes "XGROUP"), .BulkString (strBytes "CREATE"),
       .BulkString s, .BulkString g, .BulkString (strBytes "$")] ∧
    (touch_group_command ⟨s, g⟩).length = 5 := ⟨rfl, rfl⟩

/-- C7 (counterexample): the claim says every Error not beginning with
`BUSYGROUP` propagates, but the source tests
`err.description().contains("BUSYGROUP")`, so the Error text
`"xBUSYGROUPx"` — which does not begin with `BUSYGROUP` — is also
downgraded to success. -/
theorem claim_C7_counterexample :
    (strBytes "BUSYGROUP").isPrefixOf (strBytes "xBUSYGROUPx") = false ∧
    touch_group_reply (.Error (strBytes "xBUSYGROUPx")) = .ok () := by
  refine ⟨by decide, ?_⟩
  rw [touch_group_reply_error]
  rfl

/-- C7 (amended): a wire `Error` reply to `touch_group` completes
successfully exactly when its text CONTAINS `BUSYGROUP` anywhere (in
particular whenever it begins with `BUSYGROUP`); every other wire `Error`
propagates unchanged as a `ReceiveError` carrying the text verbatim. -/
theorem claim_C7_busygroup_downgrade (t : List Nat) :
    touch_group_reply (.Error t) =
      (if containsSeq t (strBytes "BUSYGROUP") then .ok ()
       else .error ⟨.ReceiveError, t⟩) ∧
    ((strBytes "BUSYGROUP").isPrefixOf t = true →
      touch_group_reply (.Error t) = .ok ()) := by
  refine ⟨touch_group_reply_error t, fun hpre => ?_⟩
  rw [touch_group_reply_error, if_pos (containsSeq_of_leading t _ hpre)]

theorem claim_C7_busygroup_downgrade_witness :
    touch_group_reply (.Error (strBytes "BUSYGROUP already exists")) = .ok () :=
  (claim_C7_busygroup_downgrade (strBytes "BUSYGROUP already exists")).2
    (by decide)

theorem emod_sub_self_emod (x N : Int) :
    (x % N - x) % N = 0 := by
  rw [Int.sub_emod, Int.emod_emod_of_dvd x dvd_rfl, sub_self, Int.zero_emod]

/-- The characterisation of Rust's `as` cast: the result is congruent to
the argument modulo `2^w` and lies in the target type's range. -/
theorem wrapCast_spec (signed : Bool) (w : Nat) (x : Int) (hw : 0 < w) :
    (wrapCast signed w x - x) % (2 ^ w : Int) = 0 ∧
    (if signed then
       -(2 ^ (w - 1)) ≤ wrapCast signed w x ∧ wrapCast signed w x < 2 ^ (w - 1)
     else 0 ≤ wrapCast signed w x ∧ wrapCast signed w x < 2 ^ w) := by
  have hN : (0 : Int) < 2 ^ w := by positivity
  have hM : (0 : Int) < 2 ^ (w - 1) := by positivity
  have hw1 : w - 1 + 1 = w := Nat.sub_add_cancel hw
  have hNM : (2 : Int) ^ w = 2 ^ (w - 1) * 2 := by
    have h := pow_succ (2 : Int) (w - 1)
    rw [hw1] at h
    exact h
  have h0 : (x % (2 ^ w : Int) - x) % (2 ^ w : Int) = 0 :=
    emod_sub_self_emod x _
  have hnn : 0 ≤ x % (2 ^ w : Int) := Int.emod_nonneg x (ne_of_gt hN)
  have hlt : x % (2 ^ w : Int) < 2 ^ w := Int.emod_lt_of_pos x hN
  cases signed with
  | false =>
      show (x % (2 ^ w : Int) - x) % (2 ^ w : Int) = 0 ∧
        (0 ≤ x % (2 ^ w : Int) ∧ x % (2 ^ w : Int) < 2 ^ w)
      exact ⟨h0, hnn, hlt⟩
  | true =>
      show ((if x % (2 ^ w : Int) < 2 ^ (w - 1) then x % (2 ^ w : Int)
             else x % (2 ^ w : Int) - 2 ^ w) - x) % (2 ^ w : Int) = 0 ∧
        (-(2 ^ (w - 1)) ≤ (if x % (2 ^ w : Int) < 2 ^ (w - 1) then x % (2 ^ w : Int)
            else x % (2 ^ w : Int) - 2 ^ w) ∧
          (if x % (2 ^ w : Int) < 2 ^ (w - 1) then x % (2 ^ w : Int)
            else x % (2 ^ w : Int) - 2 ^ w) < 2 ^ (w - 1))
      by_cases hc : x % (2 ^ w : Int) < 2 ^ (w - 1)
      · rw [if_pos hc]
        refine ⟨h0, by linarith, hc⟩
      · rw [if_neg hc]
        constructor
        · have : (x % (2 ^ w : Int) - 2 ^ w - x) % (2 ^ w : Int) =
              ((x % (2 ^ w : Int) - x) - 2 ^ w) % (2 ^ w : Int) := by ring_nf
          rw [this, Int.sub_emod, h0, Int.emod_self, sub_self, Int.zero_emod]
        · push_neg at hc
          constructor <;> linarith

/-- An in-range value is a fixed point of the `as` cast. -/
theorem wrapCast_eq_self (signed : Bool) (w : Nat) (x : Int) (hw : 0 < w)
    (hr : if signed then -(2 ^ (w - 1)) ≤ x ∧ x ≤ 2 ^ (w - 1) - 1
          else 0 ≤ x ∧ x ≤ 2 ^ w - 1) :
    wrapCast signed w x = x := by
  have hM : (0 : Int) < 2 ^ (w - 1) := by positivity
  have hw1 : w - 1 + 1 = w := Nat.sub_add_cancel hw
  have hNM : (2 : Int) ^ w = 2 ^ (w - 1) * 2 := by
    have h := pow_succ (2 : Int) (w - 1)
    rw [hw1] at h
    exact h
  cases signed with
  | false =>
      have hr2 : 0 ≤ x ∧ x ≤ 2 ^ w - 1 := hr
      show x % (2 ^ w : Int) = x
      exact Int.emod_eq_of_lt hr2.1 (by omega)
  | true =>
      have hr2 : -(2 ^ (w - 1)) ≤ x ∧ x ≤ 2 ^ (w - 1) - 1 := hr
      show (if x % (2 ^ w : Int) < 2 ^ (w - 1) then x % (2 ^ w : Int)
            else x % (2 ^ w : Int) - 2 ^ w) = x
      by_cases hx : 0 ≤ x
      · have hmod : x % (2 ^ w : Int) = x :=
          Int.emod_eq_of_lt hx (by linarith [hr2.2])
        rw [hmod]
        have : x < 2 ^ (w - 1) := by linarith [hr2.2]
        simp [this]
      · push_neg at hx
        have hshift : x % (2 ^ w : Int) = x + 2 ^ w := by
          have h1 : x % (2 ^ w : Int) = (x + 2 ^ w * 1) % (2 ^ w : Int) := by
            rw [Int.add_mul_emod_self_left]
          rw [h1, mul_one]
          exact Int.emod_eq_of_lt (by linarith [hr2.1]) (by linarith)
        rw [hshift]
        have hge : ¬ (x + 2 ^ w < 2 ^ (w - 1)) := by
          push_neg
          linarith [hr2.1]
        simp only [hge, if_false]
        ring

/-- C8 (amended): converting a wire `Integer x` to a signed or unsigned
target of width `w` always succeeds with the wrapping `as` cast — a value
congruent to `x` modulo `2^w` and inside the target range.  Converting a
`BulkString` holding the decimal text of `x` agrees with the wire-Integer
path ONLY when `x` already fits the target range (then both yield `x`);
out-of-range text fails the checked `str::parse` with an
`IncorrectConversion`, it does not wrap. -/
theorem claim_C8_int_coercion :
    (∀ (signed : Bool) (w : Nat) (x : Int), 0 < w →
      int_from_redis_value signed w (.Int x) = .ok (wrapCast signed w x) ∧
      (wrapCast signed w x - x) % (2 ^ w : Int) = 0 ∧
      (if signed then
         -(2 ^ (w - 1)) ≤ wrapCast signed w x ∧ wrapCast signed w x < 2 ^ (w - 1)
       else 0 ≤ wrapCast signed w x ∧ wrapCast signed w x < 2 ^ w)) ∧
    (∀ (signed : Bool) (w : Nat) (x : Int), 0 < w →
      (if signed then -(2 ^ (w - 1)) ≤ x ∧ x ≤ 2 ^ (w - 1) - 1
       else 0 ≤ x ∧ x ≤ 2 ^ w - 1) →
      int_from_redis_value signed w (.BulkString (intDigits x)) =
        int_from_redis_value signed w (.Int x)) := by
  constructor
  · intro signed w x hw
    exact ⟨rfl, (wrapCast_spec signed w x hw).1, (wrapCast_spec signed w x hw).2⟩
  · intro signed w x hw hr
    have hparse : parseRustTyped signed w (intDigits x) = some x := by
      cases signed with
      | true =>
          have hr2 : -(2 ^ (w - 1)) ≤ x ∧ x ≤ 2 ^ (w - 1) - 1 := hr
          show parseRustInt (-(2 ^ (w - 1))) (2 ^ (w - 1) - 1) (intDigits x) = some x
          exact parseRustInt_intDigits _ _ x hr2.1 hr2.2
      | false =>
          have hr2 : 0 ≤ x ∧ x ≤ 2 ^ w - 1 := hr
          show (parseRustNat (2 ^ w - 1) (intDigits x)).map (fun n => (n : Int)) =
            some x
          have hx0 : ¬ x < 0 := by omega
          have hdig : intDigits x = natDigits x.toNat := by
            simp [intDigits, hx0]
          have hbridge : ((2 ^ w : Nat) : Int) = (2 : Int) ^ w := by
            push_cast
            ring
          have hle : x.toNat ≤ 2 ^ w - 1 := by omega
          rw [hdig, parseRustNat_natDigits _ _ hle]
          show some ((x.toNat : Int)) = some x
          congr 1
          omega
    have hself := wrapCast_eq_self signed w x hw hr
    simp only [int_from_redis_value]
    rw [if_pos (intDigits_ascii x), hparse, hself]

/-- C8 (counterexample): for the unsigned 8-bit target, the wire Integer
256 converts (wrapping) to 0, but the BulkString `"256"` fails with an
`IncorrectConversion` — the two paths disagree outside the target range,
refuting "conversion yields the same". -/
theorem claim_C8_counterexample :
    int_from_redis_value false 8 (.Int 256) = .ok 0 ∧
    int_from_redis_value false 8 (.BulkString (strBytes "256")) =
      .error ⟨.IncorrectConversion, []⟩ :=
  ⟨rfl, rfl⟩

/-- C9 (counterexample): a reply entry whose field array names the key
`"k"` twice parses SUCCESSFULLY — the later value silently overwrites the
earlier one in the `HashMap` (its `insert` replaces), refuting the
claimed parse error on duplicate keys. -/
theorem claim_C9_counterexample :
    entry_info_from_redis_value
      (.Array [.BulkString [49, 45, 48],
               .Array [.BulkString [107], .Int 1, .BulkString [107], .Int 2]]) =
      .ok ([49, 45, 48], [([107], .Int 2)]) := rfl

/-- C9 (amended): for every UTF-8-valid field name `k` and values
`v1, v2`, the field array `[k, v1, k, v2]` converts WITHOUT error to the
one-entry map `{k ↦ v2}`: the duplicate key is silently merged, the later
value winning. -/
theorem claim_C9_duplicate_keys (k : List Nat) (v1 v2 : RedisValue)
    (hk : isValidUtf8 k = true) :
    hashmap_from_redis_value (.Array [.BulkString k, v1, .BulkString k, v2]) =
      .ok [(k, v2)] := by
  have hstr : string_from_redis_value (.BulkString k) = .ok k := by
    simp [string_from_redis_value, hk]
  have hins1 : hmInsert [] k v1 = [(k, v1)] := by
    simp [hmInsert]
  have hins2 : hmInsert [(k, v1)] k v2 = [(k, v2)] := by
    simp [hmInsert]
  simp only [hashmap_from_redis_value]
  rw [if_neg (by norm_num)]
  simp only [hmGo, hstr, hins1, hins2]

theorem claim_C9_duplicate_keys_witness :
    hashmap_from_redis_value
      (.Array [.BulkString [107], .Int 1, .BulkString [107], .Int 2]) =
      .ok [([107], .Int 2)] :=
  claim_C9_duplicate_keys [107] (.Int 1) (.Int 2) (by decide)

theorem boolNat_le_one (b : Bool) : boolNat b ≤ 1 := by
  cases b <;> simp [boolNat]

/-- The inductive invariant of the subscription loop: the single "token"
(an outstanding request, a held frame, or a queued sentinel) is conserved,
the event counters balance, and the source task never holds a frame while
a yield is still pending. -/
theorem sub_invariant (s : SubscribeState) (h : SubReachable s) :
    s.outstanding ≤ 1 ∧
    s.outstanding + boolNat s.frameHeld + s.channel = 1 ∧
    s.sentinelsPushed + boolNat s.frameHeld = s.framesReceived ∧
    s.rearmsSent + s.channel = s.sentinelsPushed ∧
    s.batchesYielded + boolNat s.pendingYield = s.sentinelsPushed ∧
    (s.frameHeld = true → s.pendingYield = false) := by
  induction h with
  | init =>
      refine ⟨?_, ?_, ?_, ?_, ?_, ?_⟩ <;> simp [subscribeInit, boolNat]
  | @step s t hr hstep ih =>
      obtain ⟨ih1, ih2, ih3, ih4, ih5, ih6⟩ := ih
      cases hstep with
      | serverReply h1 h2 h3 =>
          cases hfh : s.frameHeld <;> cases hpy : s.pendingYield <;>
            simp_all [boolNat]
          omega
      | pushSentinel h1 h2 =>
          cases hfh : s.frameHeld <;> cases hpy : s.pendingYield <;>
            simp_all [boolNat]
      | rearmWrite hch =>
          cases hfh : s.frameHeld <;> cases hpy : s.pendingYield <;>
            simp_all [boolNat] <;> omega
      | yieldBatch hpy2 =>
          cases hfh : s.frameHeld <;> cases hpy : s.pendingYield <;>
            simp_all [boolNat]

/-- C10: single-flight of the subscription engine.  In every reachable
state of the reply/re-arm loop, at most one read request is outstanding
(indeed the "token" — outstanding request, held frame, or queued sentinel
— is unique), each received frame is followed by exactly one sentinel
push, each sentinel by exactly one re-arm write, and the downstream yield
happens only after the sentinel push for that frame. -/
theorem claim_C10_single_flight (s : SubscribeState) (h : SubReachable s) :
    s.outstanding ≤ 1 ∧
    s.outstanding + boolNat s.frameHeld + s.channel = 1 ∧
    s.sentinelsPushed + boolNat s.frameHeld = s.framesReceived ∧
    s.rearmsSent + s.channel = s.sentinelsPushed ∧
    s.batchesYielded + boolNat s.pendingYield = s.sentinelsPushed := by
  have hmain := sub_invariant s h
  exact ⟨hmain.1, hmain.2.1, hmain.2.2.1, hmain.2.2.2.1, hmain.2.2.2.2.1⟩

theorem claim_C10_single_flight_witness :
    subscribeInit.outstanding ≤ 1 ∧
    subscribeInit.outstanding + boolNat subscribeInit.frameHeld +
      subscribeInit.channel = 1 ∧
    subscribeInit.sentinelsPushed + boolNat subscribeInit.frameHeld =
      subscribeInit.framesReceived ∧
    subscribeInit.rearmsSent + subscribeInit.channel =
      subscribeInit.sentinelsPushed ∧
    subscribeInit.batchesYielded + boolNat subscribeInit.pendingYield =
      subscribeInit.sentinelsPushed :=
  claim_C10_single_flight subscribeInit SubReachable.init

theorem claim_C8_int_coercion_witness :
    (int_from_redis_value false 8 (.Int 256) = .ok (wrapCast false 8 256) ∧
      (wrapCast false 8 256 - 256) % (2 ^ 8 : Int) = 0 ∧
      (if false then
         -(2 ^ (8 - 1) : Int) ≤ wrapCast false 8 256 ∧ wrapCast false 8 256 < 2 ^ (8 - 1)
       else 0 ≤ wrapCast false 8 256 ∧ wrapCast false 8 256 < 2 ^ 8)) ∧
    int_from_redis_value false 8 (.BulkString (intDigits 200)) =
      int_from_redis_value false 8 (.Int 200) :=
  ⟨claim_C8_int_coercion.1 false 8 256 (by norm_num),
   claim_C8_int_coercion.2 false 8 200 (by norm_num) (by norm_num)⟩

end RedisAsio
